import Mathlib

/-!
Verification of `p9admin/client.py` (`OpenStackClient`), a thin administrative
wrapper over keystone (identity) and openstack (infrastructure) SDK clients.

The remote keystone/openstack services are modelled as explicit state values;
each method of `OpenStackClient` becomes a Lean function from the state (and
the method's arguments) to its result, the updated state, and a trace of the
remote calls it issued.  Machine behaviour that matters to the claims —
Python `set` arithmetic, `dict`-backed memo caches, generators that yield and
memoize, exceptions (`NotFound`, `ValueError`) — is embedded directly.
-/

set_option maxHeartbeats 1000000

namespace P9Admin

/-! ## Group membership reconciliation: `OpenStackClient.ensure_group_members`

`users.list(group=group)` is modelled by reading the membership state at the
group's id; `users.add_to_group` / `users.remove_from_group` are the two kinds
of remote calls the method issues, and the final state is obtained by replaying
the issued calls in order.  Python `set`s of user ids become `Finset Nat`;
iterating over a Python set visits each element exactly once in some order,
embedded here as iterating the sorted list of the `Finset`. -/

/-- A keystone user as consumed by `ensure_group_members`: only its `id`
attribute is read (`[u.id for u in ...]`). -/
structure GUser where
  id : Nat
deriving DecidableEq

/-- A keystone call issued by `ensure_group_members`:
`users.add_to_group(user_id, group)` or `users.remove_from_group(user_id, group)`. -/
inductive GEvent where
  | addToGroup (userId : Nat) (groupId : Nat)
  | removeFromGroup (userId : Nat) (groupId : Nat)
deriving DecidableEq

/-- Remote group-membership state: each group id maps to the listing
`users.list(group=g)` returns, the group's members. -/
def GroupState := Nat → List GUser

/-- Effect of one keystone membership call on the remote state. -/
def applyGEvent (st : GroupState) : GEvent → GroupState
  | .addToGroup u g => fun g' => if g' = g then st g' ++ [⟨u⟩] else st g'
  | .removeFromGroup u g =>
      fun g' => if g' = g then (st g').filter (fun x => x.id ≠ u) else st g'

/-- The member-id set of a group listing: `set([u.id for u in ...])`. -/
def memberIds (l : List GUser) : Finset Nat :=
  (l.map GUser.id).toFinset

/-- What `ensure_group_members` produces: the remote state after all issued
calls, the ordered trace of issued calls, and the three sets it computes,
each as the deduplicated list the iteration visits. -/
structure EnsureGroupResult where
  state : GroupState
  events : List GEvent
  to_add : List Nat
  to_delete : List Nat
  unchanged : List Nat

/-- Embeds `OpenStackClient.ensure_group_members(group, ensure_users, keep_others)`:
    existing_users = set(u.id for u in users.list(group=group))
    ensure_users   = set(u.id for u in ensure_users)
    to_add = ensure_users - existing_users
    if keep_others: to_delete = set(); unchanged = existing_users
    else:           to_delete = existing_users - ensure_users
                    unchanged = ensure_users & existing_users
    add_to_group for each id in to_add, then remove_from_group for each id in
    to_delete (the `unchanged` loop only logs).  A Python set is a
    deduplicated list here; set difference and intersection are filters. -/
def ensure_group_members (st : GroupState) (group : Nat) (ensure_users : List GUser)
    (keep_others : Bool) : EnsureGroupResult :=
  let existing_ids : List Nat := ((st group).map GUser.id).dedup
  let ensure_ids : List Nat := (ensure_users.map GUser.id).dedup
  let to_add : List Nat := ensure_ids.filter (fun u => u ∉ existing_ids)
  let to_delete : List Nat :=
    if keep_others then [] else existing_ids.filter (fun u => u ∉ ensure_ids)
  let unchanged : List Nat :=
    if keep_others then existing_ids else ensure_ids.filter (fun u => u ∈ existing_ids)
  let events : List GEvent :=
    to_add.map (fun u => GEvent.addToGroup u group)
      ++ to_delete.map (fun u => GEvent.removeFromGroup u group)
  { state := events.foldl applyGEvent st
    events := events
    to_add := to_add
    to_delete := to_delete
    unchanged := unchanged }

theorem foldl_add_events (l : List Nat) (st : GroupState) (g : Nat) :
    memberIds (((l.map (fun u => GEvent.addToGroup u g)).foldl applyGEvent st) g)
      = memberIds (st g) ∪ l.toFinset := by
  induction l generalizing st with
  | nil => simp
  | cons u l ih =>
      simp only [List.map_cons, List.foldl_cons, ih, applyGEvent, List.toFinset_cons]
      ext x
      simp only [eq_self_iff_true, if_true, memberIds, List.mem_toFinset,
        List.mem_map, List.mem_append, List.mem_singleton, Finset.mem_union,
        Finset.mem_insert]
      constructor
      · rintro (⟨y, hy | hy, hid⟩ | hx)
        · exact Or.inl ⟨y, hy, hid⟩
        · subst hy
          exact Or.inr (Or.inl hid.symm)
        · exact Or.inr (Or.inr hx)
      · rintro (⟨y, hy, hid⟩ | hx | hx)
        · exact Or.inl ⟨y, Or.inl hy, hid⟩
        · exact Or.inl ⟨⟨u⟩, Or.inr rfl, hx.symm⟩
        · exact Or.inr hx

theorem foldl_remove_events (l : List Nat) (st : GroupState) (g : Nat) :
    memberIds (((l.map (fun u => GEvent.removeFromGroup u g)).foldl applyGEvent st) g)
      = memberIds (st g) \ l.toFinset := by
  induction l generalizing st with
  | nil => simp
  | cons u l ih =>
      simp only [List.map_cons, List.foldl_cons, ih, applyGEvent, List.toFinset_cons]
      ext x
      simp only [eq_self_iff_true, if_true, memberIds, List.mem_toFinset,
        List.mem_map, List.mem_filter, Finset.mem_sdiff, Finset.mem_insert,
        decide_eq_true_eq]
      constructor
      · rintro ⟨⟨y, ⟨hy, hyu⟩, hid⟩, hl⟩
        exact ⟨⟨y, hy, hid⟩, by rintro (h | h); exacts [hyu (hid.trans h), hl h]⟩
      · rintro ⟨⟨y, hy, hid⟩, hx⟩
        exact ⟨⟨y, ⟨hy, fun h => hx (Or.inl (hid.symm.trans h))⟩, hid⟩,
          fun h => hx (Or.inr h)⟩

theorem addToGroup_injective (g : Nat) :
    Function.Injective (fun u => GEvent.addToGroup u g) := by
  intro a b h
  simpa using h

theorem removeFromGroup_injective (g : Nat) :
    Function.Injective (fun u => GEvent.removeFromGroup u g) := by
  intro a b h
  simpa using h

/-- Count of one id in a filtered deduplicated list: one when present. -/
theorem count_filter_dedup (l : List Nat) (p : Nat → Bool) (u : Nat) :
    (l.dedup.filter p).count u = if u ∈ l.dedup.filter p then 1 else 0 := by
  by_cases h : u ∈ l.dedup.filter p
  · rw [if_pos h]
    exact List.count_eq_one_of_mem ((List.nodup_dedup l).filter p) h
  · rw [if_neg h]
    exact List.count_eq_zero_of_not_mem h

/-- C1: with `keep_others=False`, `ensure_group_members` computes `to_add`,
`to_delete` and `unchanged` as exactly the set differences and intersection of
the `ensure_users` ids with the existing member ids, issues exactly one
`add_to_group` call per id of `to_add` and exactly one `remove_from_group` call
per id of `to_delete`, and the group's resulting member-id set equals the
`ensure_users` id set. -/
theorem ensure_group_members_sync (st : GroupState) (group : Nat)
    (ensure_users : List GUser) :
    (ensure_group_members st group ensure_users false).to_add.toFinset
        = (ensure_users.map GUser.id).toFinset \ memberIds (st group)
  ∧ (ensure_group_members st group ensure_users false).to_delete.toFinset
        = memberIds (st group) \ (ensure_users.map GUser.id).toFinset
  ∧ (ensure_group_members st group ensure_users false).unchanged.toFinset
        = (ensure_users.map GUser.id).toFinset ∩ memberIds (st group)
  ∧ (∀ u, (ensure_group_members st group ensure_users false).events.count
            (GEvent.addToGroup u group)
        = if u ∈ (ensure_group_members st group ensure_users false).to_add
          then 1 else 0)
  ∧ (∀ u, (ensure_group_members st group ensure_users false).events.count
            (GEvent.removeFromGroup u group)
        = if u ∈ (ensure_group_members st group ensure_users false).to_delete
          then 1 else 0)
  ∧ memberIds ((ensure_group_members st group ensure_users false).state group)
        = (ensure_users.map GUser.id).toFinset := by
  simp only [ensure_group_members, if_neg Bool.false_ne_true]
  refine ⟨?_, ?_, ?_, ?_, ?_, ?_⟩
  · ext x
    simp only [List.mem_toFinset, List.mem_filter, List.mem_dedup,
      Finset.mem_sdiff, memberIds, decide_eq_true_eq, decide_not,
      Bool.not_eq_eq_eq_not, Bool.not_true, decide_eq_false_iff_not]
  · ext x
    simp only [List.mem_toFinset, List.mem_filter, List.mem_dedup,
      Finset.mem_sdiff, memberIds, decide_eq_true_eq, decide_not,
      Bool.not_eq_eq_eq_not, Bool.not_true, decide_eq_false_iff_not]
  · ext x
    simp only [List.mem_toFinset, List.mem_filter, List.mem_dedup,
      Finset.mem_inter, memberIds, decide_eq_true_eq]
  · intro u
    have hz : List.count (GEvent.addToGroup u group)
        ((((st group).map GUser.id).dedup.filter
            (fun v => v ∉ (ensure_users.map GUser.id).dedup)).map
          (fun v => GEvent.removeFromGroup v group)) = 0 :=
      List.count_eq_zero_of_not_mem (by simp)
    rw [List.count_append, hz,
      List.count_map_of_injective _ _ (addToGroup_injective group),
      count_filter_dedup]
    simp
  · intro u
    have hz : List.count (GEvent.removeFromGroup u group)
        ((((ensure_users.map GUser.id).dedup.filter
            (fun v => v ∉ ((st group).map GUser.id).dedup)).map
          (fun v => GEvent.addToGroup v group))) = 0 :=
      List.count_eq_zero_of_not_mem (by simp)
    rw [List.count_append, hz,
      List.count_map_of_injective _ _ (removeFromGroup_injective group),
      count_filter_dedup]
    simp
  · rw [List.foldl_append, foldl_remove_events, foldl_add_events]
    ext x
    simp only [Finset.mem_sdiff, Finset.mem_union, List.mem_toFinset,
      List.mem_filter, List.mem_dedup, memberIds, decide_eq_true_eq, decide_not,
      Bool.not_eq_eq_eq_not, Bool.not_true, decide_eq_false_iff_not]
    tauto

/-- C2: with `keep_others=True`, `ensure_group_members` computes an empty
removal set, never issues a `remove_from_group` call, keeps every existing
member a member, and the resulting member-id set is the union of the existing
member ids and the `ensure_users` ids. -/
theorem ensure_group_members_keep_others (st : GroupState) (group : Nat)
    (ensure_users : List GUser) :
    (ensure_group_members st group ensure_users true).to_delete = []
  ∧ (∀ u g, GEvent.removeFromGroup u g ∉
        (ensure_group_members st group ensure_users true).events)
  ∧ memberIds (st group)
      ⊆ memberIds ((ensure_group_members st group ensure_users true).state group)
  ∧ memberIds ((ensure_group_members st group ensure_users true).state group)
        = memberIds (st group) ∪ (ensure_users.map GUser.id).toFinset := by
  have hstate : memberIds ((ensure_group_members st group ensure_users true).state group)
      = memberIds (st group) ∪ (ensure_users.map GUser.id).toFinset := by
    simp only [ensure_group_members, eq_self_iff_true, if_true, List.map_nil,
      List.append_nil]
    rw [foldl_add_events]
    ext x
    simp only [Finset.mem_union, List.mem_toFinset, List.mem_filter,
      List.mem_dedup, memberIds, decide_eq_true_eq, decide_not,
      Bool.not_eq_eq_eq_not, Bool.not_true, decide_eq_false_iff_not]
    tauto
  refine ⟨by simp [ensure_group_members], ?_, ?_, hstate⟩
  · intro u g hmem
    simp only [ensure_group_members, eq_self_iff_true, if_true, List.map_nil,
      List.append_nil, List.mem_map] at hmem
    obtain ⟨v, _, hv⟩ := hmem
    exact GEvent.noConfusion hv
  · rw [hstate]
    exact Finset.subset_union_left

/-! ## Memoization: `memoize` and `add_memo`

A memoized function's `cache` is a Python dict keyed by the argument tuple,
modelled as an association list with dict semantics (`dictGet` looks a key up,
`dictSet` overwrites in place or appends).  `memoizer` is one call of the
wrapper `memoize` builds: `if args not in cache: cache[args] = obj(*args);
return cache[args]`; its third component records whether the underlying
function ran.  `runMemo` replays a whole sequence of calls, threading the
cache and collecting the argument of every underlying invocation. -/

/-- Python `cache[k]` lookup (`None` when `k not in cache`). -/
def dictGet {κ β : Type} [DecidableEq κ] (c : List (κ × β)) (k : κ) : Option β :=
  (c.find? (fun p => p.1 = k)).map Prod.snd

/-- Python `cache[k] = v`: overwrite the entry in place when the key is
present, append it otherwise. -/
def dictSet {κ β : Type} [DecidableEq κ] (c : List (κ × β)) (k : κ) (v : β) :
    List (κ × β) :=
  if (c.find? (fun p => p.1 = k)).isSome then
    c.map (fun p => if p.1 = k then (k, v) else p)
  else
    c ++ [(k, v)]

/-- Embeds one call of the wrapper produced by `memoize(obj)`: the returned
value, the cache afterwards, and whether the underlying `obj` was invoked. -/
def memoizer {α β : Type} [DecidableEq α] (obj : α → β) (cache : List (α × β))
    (args : α) : β × List (α × β) × Bool :=
  match dictGet cache args with
  | some v => (v, cache, false)
  | none => (obj args, dictSet cache args (obj args), true)

/-- Embeds `add_memo(obj, args, memo)`: `obj.cache[args] = memo`. -/
def add_memo {α β : Type} [DecidableEq α] (cache : List (α × β)) (args : α)
    (memo : β) : List (α × β) :=
  dictSet cache args memo

/-- A sequence of calls of the memoized wrapper: the list of returned values,
the final cache, and the arguments of the underlying invocations, in order. -/
def runMemo {α β : Type} [DecidableEq α] (obj : α → β) (cache : List (α × β)) :
    List α → List β × List (α × β) × List α
  | [] => ([], cache, [])
  | a :: as =>
    let step := memoizer obj cache a
    let rest := runMemo obj step.2.1 as
    (step.1 :: rest.1, rest.2.1, (if step.2.2 then [a] else []) ++ rest.2.2)

theorem find?_map_overwrite {κ β : Type} [DecidableEq κ] (c : List (κ × β))
    (k : κ) (v : β) :
    (c.map (fun p => if p.1 = k then (k, v) else p)).find? (fun p => p.1 = k)
      = if (c.find? (fun p => p.1 = k)).isSome then some (k, v) else none := by
  induction c with
  | nil => simp
  | cons p c ih =>
      by_cases h : p.1 = k
      · rw [List.map_cons, if_pos h, List.find?_cons_of_pos _ (by simp),
          List.find?_cons_of_pos _ (by simp [h])]
        simp
      · rw [List.map_cons, if_neg h, List.find?_cons_of_neg _ (by simp [h]),
          List.find?_cons_of_neg _ (by simp [h]), ih]

theorem dictGet_dictSet_self {κ β : Type} [DecidableEq κ] (c : List (κ × β))
    (k : κ) (v : β) : dictGet (dictSet c k v) k = some v := by
  unfold dictGet dictSet
  by_cases h : (c.find? (fun p => p.1 = k)).isSome
  · rw [if_pos h, find?_map_overwrite, if_pos h]
    rfl
  · rw [if_neg h, List.find?_append]
    rw [Option.not_isSome_iff_eq_none] at h
    simp [h, List.find?]

theorem find?_map_overwrite_ne {κ β : Type} [DecidableEq κ] (c : List (κ × β))
    (k k' : κ) (v : β) (hne : k' ≠ k) :
    (c.map (fun p => if p.1 = k then (k, v) else p)).find? (fun p => p.1 = k')
      = c.find? (fun p => p.1 = k') := by
  induction c with
  | nil => simp
  | cons p c ih =>
      by_cases hp : p.1 = k
      · rw [List.map_cons, if_pos hp,
          List.find?_cons_of_neg _ (by simp [Ne.symm hne]),
          List.find?_cons_of_neg _ (by simp [hp, Ne.symm hne]), ih]
      · by_cases hp' : p.1 = k'
        · rw [List.map_cons, if_neg hp, List.find?_cons_of_pos _ (by simp [hp']),
            List.find?_cons_of_pos _ (by simp [hp'])]
        · rw [List.map_cons, if_neg hp, List.find?_cons_of_neg _ (by simp [hp']),
            List.find?_cons_of_neg _ (by simp [hp']), ih]

theorem dictGet_dictSet_ne {κ β : Type} [DecidableEq κ] (c : List (κ × β))
    (k k' : κ) (v : β) (hne : k' ≠ k) :
    dictGet (dictSet c k v) k' = dictGet c k' := by
  unfold dictGet dictSet
  by_cases h : (c.find? (fun p => p.1 = k)).isSome
  · rw [if_pos h, find?_map_overwrite_ne c k k' v hne]
  · rw [if_neg h, List.find?_append]
    cases hfind : c.find? (fun p => decide (p.1 = k')) with
    | some p => rfl
    | none => simp [List.find?, Ne.symm hne]

/-- The key just memoized is present afterwards; present keys stay present. -/
theorem dictGet_dictSet_isSome {κ β : Type} [DecidableEq κ] (c : List (κ × β))
    (k k' : κ) (v : β) (h : (dictGet c k').isSome) :
    (dictGet (dictSet c k v) k').isSome := by
  by_cases hk : k' = k
  · subst hk
    rw [dictGet_dictSet_self]
    rfl
  · rwa [dictGet_dictSet_ne c k k' v hk]

/-- A cache is well formed for `obj` when every stored value is `obj` of its
key: what `memoize` in fact stores. -/
def WFCache {α β : Type} [DecidableEq α] (obj : α → β) (c : List (α × β)) : Prop :=
  ∀ p ∈ c, p.2 = obj p.1

theorem wfCache_dictSet {α β : Type} [DecidableEq α] (obj : α → β)
    (c : List (α × β)) (a : α) (h : WFCache obj c) :
    WFCache obj (dictSet c a (obj a)) := by
  intro p hp
  unfold dictSet at hp
  by_cases hs : (c.find? (fun q => q.1 = a)).isSome
  · rw [if_pos hs] at hp
    obtain ⟨q, hq, hqe⟩ := List.mem_map.mp hp
    by_cases hqa : q.1 = a
    · rw [if_pos hqa] at hqe
      rw [← hqe]
    · rw [if_neg hqa] at hqe
      exact hqe ▸ h q hq
  · rw [if_neg hs] at hp
    rcases List.mem_append.mp hp with hp | hp
    · exact h p hp
    · rw [List.mem_singleton.mp hp]

theorem wfCache_dictGet {α β : Type} [DecidableEq α] (obj : α → β)
    (c : List (α × β)) (a : α) (v : β) (h : WFCache obj c)
    (hget : dictGet c a = some v) : v = obj a := by
  unfold dictGet at hget
  cases hfind : c.find? (fun p => p.1 = a) with
  | none => rw [hfind] at hget; exact absurd hget (by simp)
  | some p =>
      rw [hfind] at hget
      have hmem : p ∈ c := List.mem_of_find?_eq_some hfind
      have hkey : p.1 = a := by
        have := List.find?_some hfind
        exact of_decide_eq_true this
      have : v = p.2 := by
        simpa using hget.symm
      rw [this, h p hmem, hkey]

/-- With a well-formed cache, every memoized call returns `obj` of its
argument, and well-formedness is preserved. -/
theorem memoizer_wf {α β : Type} [DecidableEq α] (obj : α → β)
    (c : List (α × β)) (a : α) (h : WFCache obj c) :
    (memoizer obj c a).1 = obj a ∧ WFCache obj (memoizer obj c a).2.1 := by
  unfold memoizer
  cases hget : dictGet c a with
  | some v =>
      exact ⟨wfCache_dictGet obj c a v h hget, h⟩
  | none =>
      exact ⟨rfl, wfCache_dictSet obj c a h⟩

theorem runMemo_results {α β : Type} [DecidableEq α] (obj : α → β)
    (as : List α) (c : List (α × β)) (h : WFCache obj c) :
    (runMemo obj c as).1 = as.map obj ∧ WFCache obj (runMemo obj c as).2.1 := by
  induction as generalizing c with
  | nil => exact ⟨rfl, h⟩
  | cons a as ih =>
      obtain ⟨hval, hwf⟩ := memoizer_wf obj c a h
      obtain ⟨ihv, ihw⟩ := ih (memoizer obj c a).2.1 hwf
      exact ⟨by simp [runMemo, hval, ihv], ihw⟩

/-- After `memoizer` runs, the argument is in the cache. -/
theorem memoizer_key_present {α β : Type} [DecidableEq α] (obj : α → β)
    (c : List (α × β)) (a : α) :
    (dictGet (memoizer obj c a).2.1 a).isSome := by
  unfold memoizer
  cases hget : dictGet c a with
  | some v => simpa using congrArg Option.isSome hget
  | none => simpa using congrArg Option.isSome (dictGet_dictSet_self c a (obj a))

theorem memoizer_key_mono {α β : Type} [DecidableEq α] (obj : α → β)
    (c : List (α × β)) (a a' : α) (h : (dictGet c a').isSome) :
    (dictGet (memoizer obj c a).2.1 a').isSome := by
  unfold memoizer
  cases hget : dictGet c a with
  | some v => exact h
  | none => exact dictGet_dictSet_isSome c a a' (obj a) h

theorem runMemo_calls_bound {α β : Type} [DecidableEq α] (obj : α → β)
    (as : List α) (c : List (α × β)) (a : α) :
    (runMemo obj c as).2.2.count a ≤ 1
      ∧ ((dictGet c a).isSome → (runMemo obj c as).2.2.count a = 0) := by
  induction as generalizing c with
  | nil => simp [runMemo]
  | cons a' as ih =>
      simp only [runMemo, List.count_append]
      by_cases hin : (dictGet c a').isSome
      · have hstep : (memoizer obj c a').2.2 = false := by
          unfold memoizer
          cases hget : dictGet c a' with
          | some v => rfl
          | none => rw [hget] at hin; exact absurd hin (by simp)
        have hcache : (memoizer obj c a').2.1 = c := by
          unfold memoizer
          cases hget : dictGet c a' with
          | some v => rfl
          | none => rw [hget] at hin; exact absurd hin (by simp)
        rw [hstep]
        simp only [if_neg Bool.false_ne_true, List.count_nil, Nat.zero_add, hcache]
        exact ih c
      · have hstep : (memoizer obj c a').2.2 = true := by
          unfold memoizer
          cases hget : dictGet c a' with
          | some v => rw [hget] at hin; exact absurd rfl hin
          | none => rfl
        rw [hstep, if_pos rfl]
        obtain ⟨ihb, ihz⟩ := ih (memoizer obj c a').2.1
        by_cases ha : a = a'
        · subst ha
          have hz := ihz (memoizer_key_present obj c a)
          constructor
          · simp [hz, List.count_cons]
          · intro hsome
            exact absurd hsome hin
        · have : ([a'].count a) = 0 :=
            List.count_eq_zero_of_not_mem (by simp [ha])
          constructor
          · rw [this, Nat.zero_add]
            exact ihb
          · intro hsome
            rw [this, Nat.zero_add]
            exact ihz (memoizer_key_mono obj c a' a hsome)

/-- C3: starting from the empty cache `memoize` installs, a memoized wrapper
invokes the underlying function at most once per argument value across any
sequence of calls, and (the underlying function being pure in this model)
every call returns exactly what the unmemoized function returns: the wrapper
is extensionally equal to the function it wraps. -/
theorem memoize_at_most_once_and_extensional {α β : Type} [DecidableEq α]
    (obj : α → β) (as : List α) :
    (runMemo obj [] as).1 = as.map obj
  ∧ (∀ a, (runMemo obj [] as).2.2.count a ≤ 1)
  ∧ (∀ a v c, dictGet c a = some v → WFCache obj c → (memoizer obj c a).1 = v) := by
  refine ⟨(runMemo_results obj as [] (by intro p hp; exact absurd hp (by simp))).1,
    fun a => (runMemo_calls_bound obj as [] a).1, ?_⟩
  intro a v c hget hwf
  have := (memoizer_wf obj c a hwf).1
  rw [this, ← wfCache_dictGet obj c a v hwf hget]

/-! ## Listing generators that seed the memo caches:
`OpenStackClient.subnets` and `OpenStackClient.security_groups`

Both generators iterate the SDK listing and, before yielding each element,
call `add_memo(self.subnet, (self, x.id), x)` (resp. `self.security_group`),
so that a later memoized point lookup hits the cache.  The `(self, id)` key
collapses to `id` here, `self` being fixed. -/

/-- A subnet as the SDK returns it: the attributes this file reads. -/
structure Subnet where
  id : Nat
  project_id : Nat
  network_id : Nat
  name : String
  cidr : String
deriving DecidableEq

/-- A security group as the SDK returns it: the attributes this file reads. -/
structure SecurityGroup where
  id : Nat
  project_id : Nat
  name : String
deriving DecidableEq

/-- Common shape of the two generators: walk the SDK listing, memoize each
element under its id, and yield it.  Returns the yielded elements in order and
the cache once the listing is exhausted. -/
def gen_memo_yield {α : Type} (key : α → Nat) :
    List (Nat × α) → List α → List α × List (Nat × α)
  | c, [] => ([], c)
  | c, x :: rest =>
    let r := gen_memo_yield key (add_memo c (key x) x) rest
    (x :: r.1, r.2)

/-- Embeds the generator `OpenStackClient.subnets(...)` run against the SDK
listing `listing`, starting from memo cache `c`. -/
def subnets (c : List (Nat × Subnet)) (listing : List Subnet) :
    List Subnet × List (Nat × Subnet) :=
  gen_memo_yield Subnet.id c listing

/-- Embeds the memoized `OpenStackClient.subnet(id)`, whose underlying body is
`openstack().network.get_subnet(id)`. -/
def subnet (get_subnet : Nat → Subnet) (c : List (Nat × Subnet)) (id : Nat) :
    Subnet × List (Nat × Subnet) × Bool :=
  memoizer get_subnet c id

/-- Embeds the generator `OpenStackClient.security_groups(...)`. -/
def security_groups (c : List (Nat × SecurityGroup)) (listing : List SecurityGroup) :
    List SecurityGroup × List (Nat × SecurityGroup) :=
  gen_memo_yield SecurityGroup.id c listing

/-- Embeds the memoized `OpenStackClient.security_group(id)`, whose underlying
body is `openstack().network.get_security_group(id)`. -/
def security_group (get_security_group : Nat → SecurityGroup)
    (c : List (Nat × SecurityGroup)) (id : Nat) :
    SecurityGroup × List (Nat × SecurityGroup) × Bool :=
  memoizer get_security_group c id

theorem gen_memo_yield_append {α : Type} (key : α → Nat) (c : List (Nat × α))
    (l₁ l₂ : List α) :
    (gen_memo_yield key c (l₁ ++ l₂)).2
      = (gen_memo_yield key (gen_memo_yield key c l₁).2 l₂).2 := by
  induction l₁ generalizing c with
  | nil => rfl
  | cons x l₁ ih => simp [gen_memo_yield, ih]

theorem gen_memo_yield_fst {α : Type} (key : α → Nat) (c : List (Nat × α))
    (l : List α) : (gen_memo_yield key c l).1 = l := by
  induction l generalizing c with
  | nil => rfl
  | cons x l ih => simp [gen_memo_yield, ih]

/-- Once the generator has yielded `s`, the memoized point lookup at `s.id`
returns `s` itself, leaves the cache unchanged, and does not run the remote
getter. -/
theorem memo_after_yield {α : Type} (key : α → Nat) (remote : Nat → α)
    (c : List (Nat × α)) (l₁ : List α) (s : α) :
    memoizer remote (gen_memo_yield key c (l₁ ++ [s])).2 (key s)
      = (s, (gen_memo_yield key c (l₁ ++ [s])).2, false) := by
  have hc : (gen_memo_yield key c (l₁ ++ [s])).2
      = add_memo (gen_memo_yield key c l₁).2 (key s) s := by
    rw [gen_memo_yield_append]
    rfl
  rw [hc]
  simp only [memoizer, add_memo, dictGet_dictSet_self]

/-- C9: the listing generators seed the memo cache: once `subnets(...)` has
yielded a subnet, calling `subnet(id)` with that subnet's id returns the very
yielded object, leaves the cache as it is, and never invokes the remote
`get_subnet`; likewise for `security_groups(...)` and `security_group(id)`.
Both generators yield exactly the SDK listing, in order. -/
theorem generators_seed_memo_cache (get_subnet : Nat → Subnet)
    (get_security_group : Nat → SecurityGroup)
    (cs : List (Nat × Subnet)) (l₁ l₂ : List Subnet) (s : Subnet)
    (cg : List (Nat × SecurityGroup)) (m₁ m₂ : List SecurityGroup)
    (sg : SecurityGroup) :
    subnet get_subnet (subnets cs (l₁ ++ [s])).2 s.id
        = (s, (subnets cs (l₁ ++ [s])).2, false)
  ∧ security_group get_security_group (security_groups cg (m₁ ++ [sg])).2 sg.id
        = (sg, (security_groups cg (m₁ ++ [sg])).2, false)
  ∧ (subnets cs l₂).1 = l₂
  ∧ (security_groups cg m₂).1 = m₂ := by
  exact ⟨memo_after_yield Subnet.id get_subnet cs l₁ s,
    memo_after_yield SecurityGroup.id get_security_group cg m₁ sg,
    gen_memo_yield_fst Subnet.id cs l₂,
    gen_memo_yield_fst SecurityGroup.id cg m₂⟩

/-! ## Groups: `find_group` and `ensure_group`

`keystone().groups.find(name=name)` returns the group of that name or raises
`NotFound`, which `find_group` turns into `None`; the keystone group list is
modelled as a list searched by name.  `groups.create(name=name)` appends a
fresh group. -/

/-- A keystone group: the attributes this file reads. -/
structure Group where
  id : Nat
  name : String
deriving DecidableEq

/-- The keystone identity state seen by the group helpers: the stored groups
and the id the next `groups.create` will assign. -/
structure GroupsState where
  groups : List Group
  next_id : Nat
deriving DecidableEq

/-- Embeds `OpenStackClient.find_group(name)`: `groups.find(name=name)`,
`NotFound` mapped to `None`. -/
def find_group (st : GroupsState) (name : String) : Option Group :=
  st.groups.find? (fun g => g.name = name)

/-- Embeds `OpenStackClient.ensure_group(name)`: the returned group, the
keystone state afterwards, and whether `groups.create` was called. -/
def ensure_group (st : GroupsState) (name : String) : Group × GroupsState × Bool :=
  match find_group st name with
  | some group => (group, st, false)
  | none =>
    let group : Group := ⟨st.next_id, name⟩
    (group, ⟨st.groups ++ [group], st.next_id + 1⟩, true)

/-- C4: `ensure_group` is create-if-missing and idempotent: when `find_group`
returns an existing group it is returned unchanged with no create; only when
`find_group` returns `None` is `groups.create` called, appending exactly the
returned group; and a second `ensure_group` with the same name, run on the
state the first call left, creates nothing and returns the group the first
call returned. -/
theorem ensure_group_create_if_missing (st : GroupsState) (name : String) :
    (∀ g, find_group st name = some g → ensure_group st name = (g, st, false))
  ∧ (find_group st name = none → (ensure_group st name).2.2 = true
        ∧ (ensure_group st name).2.1.groups
            = st.groups ++ [(ensure_group st name).1])
  ∧ ensure_group (ensure_group st name).2.1 name
      = ((ensure_group st name).1, (ensure_group st name).2.1, false) := by
  refine ⟨?_, ?_, ?_⟩
  · intro g hg
    simp [ensure_group, hg]
  · intro hf
    simp [ensure_group, hf]
  · cases hf : find_group st name with
    | some g =>
        simp only [ensure_group, hf]
    | none =>
        simp only [ensure_group, hf]
        have : find_group (⟨st.groups ++ [⟨st.next_id, name⟩], st.next_id + 1⟩ : GroupsState)
            name = some ⟨st.next_id, name⟩ := by
          unfold find_group at hf ⊢
          simp only [List.find?_append, hf]
          simp [List.find?]
        simp [this]

/-! ## Users: `find_user` and `ensure_user`

`keystone().users.find(name=email)` is a search of the stored users by the
`name` attribute, `NotFound` mapped to `None` by `_find_user`; `ensure_user`
receives a `p9admin.User` object (`name`, `email`, and a `user` slot caching
the keystone user) and calls `users.create(name=email, email=email,
description=user.name, default_project=default_project)` when the lookup
finds nothing. -/

/-- A keystone user: the attributes this file reads or sets. -/
structure KUser where
  id : Nat
  name : String
  email : String
  description : String
  default_project : Option Nat
deriving DecidableEq

/-- A `p9admin.User` as `ensure_user` consumes it: display name, email, and
the `user` slot that caches the resolved keystone user. -/
structure PUser where
  name : String
  email : String
  user : Option KUser
deriving DecidableEq

/-- The keystone identity state seen by the user helpers. -/
structure UsersState where
  users : List KUser
  next_id : Nat
deriving DecidableEq

/-- A remote call issued by `ensure_user`: the `users.find` lookup inside
`find_user`, or `users.create`. -/
inductive UEvent where
  | lookup (email : String)
  | create (u : KUser)
deriving DecidableEq

/-- Embeds `OpenStackClient._find_user(email)` (and `find_user` on a plain
email): `users.find(name=email)`, `NotFound` mapped to `None`. -/
def find_user (st : UsersState) (email : String) : Option KUser :=
  st.users.find? (fun u => u.name = email)

/-- Embeds `OpenStackClient.ensure_user(user, default_project)`: the returned
keystone user, the `p9admin.User` object afterwards (its `user` slot may have
been assigned), the keystone state afterwards, and the remote calls issued. -/
def ensure_user (st : UsersState) (user : PUser) (default_project : Option Nat) :
    KUser × PUser × UsersState × List UEvent :=
  match user.user with
  | some ku => (ku, user, st, [])
  | none =>
    match find_user st user.email with
    | some ku =>
        (ku, ⟨user.name, user.email, some ku⟩, st, [UEvent.lookup user.email])
    | none =>
        let ku : KUser := ⟨st.next_id, user.email, user.email, user.name, default_project⟩
        (ku, ⟨user.name, user.email, some ku⟩,
          ⟨st.users ++ [ku], st.next_id + 1⟩,
          [UEvent.lookup user.email, UEvent.create ku])

/-- C5: `ensure_user` is create-if-missing: a `p9admin.User` that already
carries a resolved keystone user is returned with no remote call at all; else
a keystone user whose name equals `user.email` is found, stored in the `user`
slot and returned with no create; only when the lookup finds none does
`users.create` run, with `name` and `email` both `user.email`, `description`
`user.name` and the given default project, appending exactly the returned
user; and in every case the returned value is what the `user` slot holds
after the call. -/
theorem ensure_user_create_if_missing (st : UsersState) (user : PUser)
    (default_project : Option Nat) :
    (∀ ku, user.user = some ku →
        ensure_user st user default_project = (ku, user, st, []))
  ∧ (∀ ku, user.user = none → find_user st user.email = some ku →
        ensure_user st user default_project
          = (ku, ⟨user.name, user.email, some ku⟩, st, [UEvent.lookup user.email]))
  ∧ (user.user = none → find_user st user.email = none →
        ensure_user st user default_project
          = (⟨st.next_id, user.email, user.email, user.name, default_project⟩,
             ⟨user.name, user.email,
               some ⟨st.next_id, user.email, user.email, user.name, default_project⟩⟩,
             ⟨st.users ++ [⟨st.next_id, user.email, user.email, user.name,
               default_project⟩], st.next_id + 1⟩,
             [UEvent.lookup user.email,
              UEvent.create ⟨st.next_id, user.email, user.email, user.name,
                default_project⟩]))
  ∧ (ensure_user st user default_project).2.1.user
      = some (ensure_user st user default_project).1 := by
  refine ⟨?_, ?_, ?_, ?_⟩
  · intro ku hku
    simp [ensure_user, hku]
  · intro ku hnone hfind
    simp [ensure_user, hnone, hfind]
  · intro hnone hfind
    simp [ensure_user, hnone, hfind]
  · cases hku : user.user with
    | some ku => simp [ensure_user, hku]
    | none =>
        cases hfind : find_user st user.email with
        | some ku => simp [ensure_user, hku, hfind]
        | none => simp [ensure_user, hku, hfind]

/-! ## Role assignments: `check_role_assignment`, `grant_project_access`,
`revoke_project_access`

A role assignment is a `(role id, subject, project id)` triple; the subject is
a user or a group.  `keystone().roles.check` answers with a truthy response
when the assignment exists and raises `NotFound` otherwise, modelled as an
`Except Unit Bool`.  `roles.find(name=role_name)` (under `@memoize` in
`OpenStackClient.role`) raises `NotFound` when no role has the name; the
method does not catch that, so it surfaces as an error result.  Both access
methods validate their `user`/`group` keywords before any remote call. -/

/-- The subject of a role assignment: a user or a group. -/
inductive Subject where
  | user (id : Nat)
  | group (id : Nat)
deriving DecidableEq

/-- A keystone role: the attributes this file reads. -/
structure Role where
  id : Nat
  name : String
deriving DecidableEq

/-- The keystone state seen by the access helpers: the stored roles and the
set of existing role assignments. -/
structure RolesState where
  roles : List Role
  assignments : Finset (Nat × Subject × Nat)
deriving DecidableEq

/-- A remote call issued by the access helpers (the `roles.check` probe is
read-only and elided from the trace). -/
inductive REvent where
  | findRole (name : String)
  | grant (roleId : Nat) (subj : Subject) (project : Nat)
  | revoke (roleId : Nat) (subj : Subject) (project : Nat)
deriving DecidableEq

/-- What an access method produces: the exception it raised (if any), the
keystone state afterwards, and the remote calls issued. -/
structure AccessResult where
  err : Option String
  state : RolesState
  events : List REvent
deriving DecidableEq

/-- Outcome of the remote `keystone().roles.check(role, ...)`: a truthy
response when the assignment exists, `NotFound` otherwise. -/
def roles_check (st : RolesState) (roleId : Nat) (subj : Subject)
    (project : Nat) : Except Unit Bool :=
  if (roleId, subj, project) ∈ st.assignments then Except.ok true
  else Except.error ()

/-- Embeds `OpenStackClient.check_role_assignment(role, **kwargs)` over the
outcome of the underlying `roles.check` call:
    try:
        if self.keystone().roles.check(role, **kwargs): return True
    except NotFound: pass
    return False -/
def check_role_assignment (remote : Except Unit Bool) : Bool :=
  match remote with
  | .ok b => if b then true else false
  | .error _ => false

/-- Embeds the memoized `OpenStackClient.role(name)`:
`keystone().roles.find(name=name)`, `NotFound` propagating as `none`. -/
def role (st : RolesState) (name : String) : Option Role :=
  st.roles.find? (fun r => r.name = name)

/-- The body of `grant_project_access` past its validation, with the subject
resolved: look the role up, check the assignment, grant only when absent. -/
def grant_as (st : RolesState) (project : Nat) (subj : Subject)
    (role_name : String) : AccessResult :=
  match role st role_name with
  | none => ⟨some "NotFound", st, [REvent.findRole role_name]⟩
  | some r =>
    if check_role_assignment (roles_check st r.id subj project) then
      ⟨none, st, [REvent.findRole role_name]⟩
    else
      ⟨none, ⟨st.roles, insert (r.id, subj, project) st.assignments⟩,
        [REvent.findRole role_name, REvent.grant r.id subj project]⟩

/-- The body of `revoke_project_access` past its validation, with the subject
resolved: look the role up, check the assignment, revoke only when present. -/
def revoke_as (st : RolesState) (project : Nat) (subj : Subject)
    (role_name : String) : AccessResult :=
  match role st role_name with
  | none => ⟨some "NotFound", st, [REvent.findRole role_name]⟩
  | some r =>
    if check_role_assignment (roles_check st r.id subj project) then
      ⟨none, ⟨st.roles, st.assignments.erase (r.id, subj, project)⟩,
        [REvent.findRole role_name, REvent.revoke r.id subj project]⟩
    else
      ⟨none, st, [REvent.findRole role_name]⟩

/-- Embeds `OpenStackClient.grant_project_access(project, user, group,
role_name)`: `user` and `group` are the optional keyword arguments, validated
before any remote call (`raise ValueError("Must specify exactly one of user
or group")`). -/
def grant_project_access (st : RolesState) (project : Nat) (user : Option Nat)
    (group : Option Nat) (role_name : String) : AccessResult :=
  match user, group with
  | none, none => ⟨some "Must specify exactly one of user or group", st, []⟩
  | some _, some _ => ⟨some "Must specify exactly one of user or group", st, []⟩
  | some u, none => grant_as st project (Subject.user u) role_name
  | none, some g => grant_as st project (Subject.group g) role_name

/-- Embeds `OpenStackClient.revoke_project_access(project, user, group,
role_name)`, validated the same way. -/
def revoke_project_access (st : RolesState) (project : Nat) (user : Option Nat)
    (group : Option Nat) (role_name : String) : AccessResult :=
  match user, group with
  | none, none => ⟨some "Must specify exactly one of user or group", st, []⟩
  | some _, some _ => ⟨some "Must specify exactly one of user or group", st, []⟩
  | some u, none => revoke_as st project (Subject.user u) role_name
  | none, some g => revoke_as st project (Subject.group g) role_name

/-- C8: `check_role_assignment` is total over `NotFound`: it always returns a
boolean, `True` exactly when the underlying `roles.check` succeeds with a
truthy result, `False` when it raises `NotFound` or returns a falsy value; in
particular against the modelled keystone it answers membership of the
assignment. -/
theorem check_role_assignment_total (r : Except Unit Bool) (st : RolesState)
    (roleId : Nat) (subj : Subject) (project : Nat) :
    (check_role_assignment r = true ↔ r = Except.ok true)
  ∧ check_role_assignment (Except.error ()) = false
  ∧ (∀ b, check_role_assignment (Except.ok b) = b)
  ∧ (check_role_assignment (roles_check st roleId subj project) = true
        ↔ (roleId, subj, project) ∈ st.assignments) := by
  refine ⟨?_, rfl, ?_, ?_⟩
  · cases r with
    | ok b => cases b <;> simp [check_role_assignment]
    | error e => simp [check_role_assignment]
  · intro b
    cases b <;> rfl
  · unfold roles_check
    by_cases h : (roleId, subj, project) ∈ st.assignments
    · simp [h, check_role_assignment]
    · simp [h, check_role_assignment]

theorem grant_as_idempotent (st : RolesState) (project : Nat) (subj : Subject)
    (role_name : String) :
    (grant_as (grant_as st project subj role_name).state project subj
        role_name).state
      = (grant_as st project subj role_name).state := by
  cases hr : role st role_name with
  | none => simp [grant_as, hr]
  | some r =>
      by_cases hc : check_role_assignment (roles_check st r.id subj project) = true
      · simp [grant_as, hr, hc]
      · have h1 : grant_as st project subj role_name
            = ⟨none, ⟨st.roles, insert (r.id, subj, project) st.assignments⟩,
                [REvent.findRole role_name, REvent.grant r.id subj project]⟩ := by
          simp [grant_as, hr, hc]
        rw [h1]
        have hr' : role (⟨st.roles, insert (r.id, subj, project) st.assignments⟩ :
            RolesState) role_name = some r := hr
        have hc' : check_role_assignment (roles_check
            (⟨st.roles, insert (r.id, subj, project) st.assignments⟩ : RolesState)
            r.id subj project) = true := by
          simp [roles_check, check_role_assignment]
        simp [grant_as, hr', hc']

/-- C6: `grant_project_access` is idempotent on role assignments, for either
kind of subject: when `check_role_assignment` reports the assignment exists,
`roles.grant` is not called and the state is unchanged; otherwise
`roles.grant` is called exactly once, adding the assignment; and running the
method twice with the same project, subject and role name leaves the same
assignment state as running it once. -/
theorem grant_project_access_idempotent (st : RolesState) (project : Nat)
    (u g : Nat) (role_name : String) :
    (∀ r, role st role_name = some r →
        check_role_assignment (roles_check st r.id (Subject.user u) project) = true →
        grant_project_access st project (some u) none role_name
          = ⟨none, st, [REvent.findRole role_name]⟩)
  ∧ (∀ r, role st role_name = some r →
        check_role_assignment (roles_check st r.id (Subject.user u) project) = false →
        grant_project_access st project (some u) none role_name
          = ⟨none, ⟨st.roles, insert (r.id, Subject.user u, project) st.assignments⟩,
              [REvent.findRole role_name,
               REvent.grant r.id (Subject.user u) project]⟩)
  ∧ (∀ r, role st role_name = some r →
        check_role_assignment (roles_check st r.id (Subject.group g) project) = true →
        grant_project_access st project none (some g) role_name
          = ⟨none, st, [REvent.findRole role_name]⟩)
  ∧ (∀ r, role st role_name = some r →
        check_role_assignment (roles_check st r.id (Subject.group g) project) = false →
        grant_project_access st project none (some g) role_name
          = ⟨none, ⟨st.roles, insert (r.id, Subject.group g, project) st.assignments⟩,
              [REvent.findRole role_name,
               REvent.grant r.id (Subject.group g) project]⟩)
  ∧ (grant_project_access
        (grant_project_access st project (some u) none role_name).state project
        (some u) none role_name).state
      = (grant_project_access st project (some u) none role_name).state
  ∧ (grant_project_access
        (grant_project_access st project none (some g) role_name).state project
        none (some g) role_name).state
      = (grant_project_access st project none (some g) role_name).state := by
  refine ⟨?_, ?_, ?_, ?_, ?_, ?_⟩
  · intro r hr hc
    simp [grant_project_access, grant_as, hr, hc]
  · intro r hr hc
    simp [grant_project_access, grant_as, hr, hc]
  · intro r hr hc
    simp [grant_project_access, grant_as, hr, hc]
  · intro r hr hc
    simp [grant_project_access, grant_as, hr, hc]
  · exact grant_as_idempotent st project (Subject.user u) role_name
  · exact grant_as_idempotent st project (Subject.group g) role_name

/-- C10: both access methods raise
`ValueError("Must specify exactly one of user or group")` before contacting
any remote API whenever both a user and a group, or neither, is supplied: on
those inputs nothing is looked up, granted or revoked and the state is
unchanged; with exactly one of the two supplied they proceed into the method
body. -/
theorem access_validation_value_error (st : RolesState) (project : Nat)
    (u g : Nat) (role_name : String) :
    grant_project_access st project none none role_name
        = ⟨some "Must specify exactly one of user or group", st, []⟩
  ∧ grant_project_access st project (some u) (some g) role_name
        = ⟨some "Must specify exactly one of user or group", st, []⟩
  ∧ revoke_project_access st project none none role_name
        = ⟨some "Must specify exactly one of user or group", st, []⟩
  ∧ revoke_project_access st project (some u) (some g) role_name
        = ⟨some "Must specify exactly one of user or group", st, []⟩
  ∧ grant_project_access st project (some u) none role_name
        = grant_as st project (Subject.user u) role_name
  ∧ grant_project_access st project none (some g) role_name
        = grant_as st project (Subject.group g) role_name
  ∧ revoke_project_access st project (some u) none role_name
        = revoke_as st project (Subject.user u) role_name
  ∧ revoke_project_access st project none (some g) role_name
        = revoke_as st project (Subject.group g) role_name := by
  exact ⟨rfl, rfl, rfl, rfl, rfl, rfl, rfl, rfl⟩

/-! ## Linear searches over paginated SDK listings:
`find_network`, `find_subnet`, `find_router`, `find_security_group`,
`find_security_group_rule`

Each SDK listing call (`network.networks(...)`, `network.subnets(...)`,
`network.routers(...)`, `network.security_groups(...)`,
`network.security_group_rules(...)`) is modelled as yielding exactly the
stored resources matching its query filters, in storage order.  The `find_*`
methods loop over the listing: `for x in listing: return x` / `return None`,
and `find_security_group_rule` additionally tests `remote_ip_prefix` inside
the loop (`remote_ip_cidr` embeds that attribute). -/

/-- A network as the SDK returns it: the attributes this file reads. -/
structure Network where
  id : Nat
  project_id : Nat
  name : String
deriving DecidableEq

/-- A router as the SDK returns it: the attributes this file reads. -/
structure Router where
  id : Nat
  project_id : Nat
  name : String
deriving DecidableEq

/-- A security group rule as the SDK returns it; `remote_ip_cidr` embeds its
`remote_ip_prefix` attribute. -/
structure SGRule where
  id : Nat
  security_group_id : Nat
  direction : String
  ethertype : String
  remote_ip_cidr : String
deriving DecidableEq

/-- Modelled SDK listing `network.networks(project_id=..., name=...)`. -/
def network_networks (stored : List Network) (project_id : Nat) (name : String) :
    List Network :=
  stored.filter (fun n => n.project_id = project_id ∧ n.name = name)

/-- Modelled SDK listing
`network.subnets(project_id=..., network_id=..., name=...)`. -/
def network_subnets (stored : List Subnet) (project_id network_id : Nat)
    (name : String) : List Subnet :=
  stored.filter (fun s =>
    s.project_id = project_id ∧ s.network_id = network_id ∧ s.name = name)

/-- Modelled SDK listing `network.routers(project_id=..., name=...)`. -/
def network_routers (stored : List Router) (project_id : Nat) (name : String) :
    List Router :=
  stored.filter (fun r => r.project_id = project_id ∧ r.name = name)

/-- Modelled SDK listing `network.security_groups(project_id=..., name=...)`. -/
def network_security_groups (stored : List SecurityGroup) (project_id : Nat)
    (name : String) : List SecurityGroup :=
  stored.filter (fun sg => sg.project_id = project_id ∧ sg.name = name)

/-- Modelled SDK listing `network.security_group_rules(security_group_id=...,
direction="ingress", ethertype="IPv4")`. -/
def network_security_group_rules (stored : List SGRule)
    (security_group_id : Nat) : List SGRule :=
  stored.filter (fun r =>
    r.security_group_id = security_group_id
      ∧ r.direction = "ingress" ∧ r.ethertype = "IPv4")

/-- The loop `for x in listing: ... return x` / `return None` shared by
`find_network`, `find_subnet`, `find_router` and `find_security_group`. -/
def first_yield {α : Type} : List α → Option α
  | [] => none
  | x :: _ => some x

/-- Embeds `OpenStackClient.find_network(project, name)` (the method reads
`project.id`). -/
def find_network (stored : List Network) (project_id : Nat) (name : String) :
    Option Network :=
  first_yield (network_networks stored project_id name)

/-- Embeds `OpenStackClient.find_subnet(project, network, name)`. -/
def find_subnet (stored : List Subnet) (project_id network_id : Nat)
    (name : String) : Option Subnet :=
  first_yield (network_subnets stored project_id network_id name)

/-- Embeds `OpenStackClient.find_router(project, name)`. -/
def find_router (stored : List Router) (project_id : Nat) (name : String) :
    Option Router :=
  first_yield (network_routers stored project_id name)

/-- Embeds `OpenStackClient.find_security_group(project, name)`. -/
def find_security_group (stored : List SecurityGroup) (project_id : Nat)
    (name : String) : Option SecurityGroup :=
  first_yield (network_security_groups stored project_id name)

/-- The loop of `find_security_group_rule`: the first yielded rule whose
`remote_ip_prefix` equals `"0.0.0.0/0"`, else `None`. -/
def find_sg_rule_loop : List SGRule → Option SGRule
  | [] => none
  | r :: rest =>
    if r.remote_ip_cidr = "0.0.0.0/0" then some r else find_sg_rule_loop rest

/-- Embeds `OpenStackClient.find_security_group_rule(security_group)` (the
method reads `security_group.id`). -/
def find_security_group_rule (stored : List SGRule) (security_group_id : Nat) :
    Option SGRule :=
  find_sg_rule_loop (network_security_group_rules stored security_group_id)

theorem first_yield_eq_head {α : Type} (l : List α) : first_yield l = l.head? := by
  cases l <;> rfl

theorem first_yield_eq_none {α : Type} (l : List α) :
    first_yield l = none ↔ l = [] := by
  cases l <;> simp [first_yield]

theorem find_sg_rule_loop_eq_find (l : List SGRule) :
    find_sg_rule_loop l = l.find? (fun r => r.remote_ip_cidr = "0.0.0.0/0") := by
  induction l with
  | nil => rfl
  | cons r rest ih =>
      by_cases h : r.remote_ip_cidr = "0.0.0.0/0"
      · have hl : find_sg_rule_loop (r :: rest) = some r := by
          simp [find_sg_rule_loop, if_pos h]
        rw [hl, List.find?_cons_of_pos rest (by simpa using h)]
      · have hl : find_sg_rule_loop (r :: rest) = find_sg_rule_loop rest := by
          simp [find_sg_rule_loop, if_neg h]
        rw [hl, ih, List.find?_cons_of_neg rest (by simpa using h)]

/-- C7: each of `find_network`, `find_subnet`, `find_router` and
`find_security_group` is a linear search returning the first element the SDK
listing yields, and `None` exactly when the listing yields nothing;
`find_security_group_rule` returns the first yielded ingress IPv4 rule whose
`remote_ip_prefix` equals `"0.0.0.0/0"`, and `None` exactly when no yielded
rule has that value. -/
theorem find_helpers_linear_search (nets : List Network) (subs : List Subnet)
    (routers : List Router) (sgs : List SecurityGroup) (rules : List SGRule)
    (project_id network_id sg_id : Nat) (name : String) :
    find_network nets project_id name = (network_networks nets project_id name).head?
  ∧ (find_network nets project_id name = none
        ↔ network_networks nets project_id name = [])
  ∧ find_subnet subs project_id network_id name
        = (network_subnets subs project_id network_id name).head?
  ∧ (find_subnet subs project_id network_id name = none
        ↔ network_subnets subs project_id network_id name = [])
  ∧ find_router routers project_id name
        = (network_routers routers project_id name).head?
  ∧ (find_router routers project_id name = none
        ↔ network_routers routers project_id name = [])
  ∧ find_security_group sgs project_id name
        = (network_security_groups sgs project_id name).head?
  ∧ (find_security_group sgs project_id name = none
        ↔ network_security_groups sgs project_id name = [])
  ∧ find_security_group_rule rules sg_id
        = (network_security_group_rules rules sg_id).find?
            (fun r => r.remote_ip_cidr = "0.0.0.0/0")
  ∧ (find_security_group_rule rules sg_id = none
        ↔ ∀ r ∈ network_security_group_rules rules sg_id,
            r.remote_ip_cidr ≠ "0.0.0.0/0") := by
  refine ⟨first_yield_eq_head _, first_yield_eq_none _,
    first_yield_eq_head _, first_yield_eq_none _,
    first_yield_eq_head _, first_yield_eq_none _,
    first_yield_eq_head _, first_yield_eq_none _,
    find_sg_rule_loop_eq_find _, ?_⟩
  rw [find_security_group_rule, find_sg_rule_loop_eq_find, List.find?_eq_none]
  constructor
  · intro h r hr
    have := h r hr
    simpa using this
  · intro h r hr
    simpa using h r hr

end P9Admin
